import Mathlib

/-!
Verification development for the archetype-invariant subsystem of
`crates/bevy_ecs/src/world/archetype_invariants.rs`.

The Rust source defines the data model (typed and erased statements and
invariants, the registry with its cursor), the erasure functions
`into_untyped`, the convenience constructor `full_bundle`, and the registry
operation `ArchetypeInvariants::add`.  The statement evaluator and the
checker pass are described by the specification but their code is not part
of this file set; they are modelled here from the specification and marked
as such in their doc comments.

Modelling decisions:
- `ComponentId` is an external stable handle, modelled as `Nat`.
- `HashSet<ComponentId>` is modelled as `Finset ComponentId`.
- Bundle resolution (`B::component_ids(&mut world.components, ...)`) is an
  external collaborator; erasure therefore takes the resolved list of
  component ids of the bundle as an explicit argument, mirroring the list
  the Rust code collects into a `HashSet`.
- The `warn!` side effect inside `ArchetypeStatement::into_untyped` is
  modelled as a `Bool` component of the result: `true` exactly when the
  source would emit the log line.
-/

namespace Bevy

/-- Stable handle for a component type, issued by the external component
registry (`ComponentId`). -/
abbrev ComponentId := Nat

/-- A set of component ids, the model of `HashSet<ComponentId>`. -/
abbrev ComponentSet := Finset ComponentId

/-- `UntypedArchetypeStatement`: a type-erased statement about the presence
or absence of a set of components. -/
inductive UntypedArchetypeStatement where
  /-- Evaluates to true if and only if the entity has all of the components
  present in the set. -/
  | AllOf (s : ComponentSet)
  /-- The entity has at least one component in the set, and may have all of
  them. -/
  | AtLeastOneOf (s : ComponentSet)
  /-- The entity has none of the components in the set. -/
  | NoneOf (s : ComponentSet)
deriving DecidableEq

/-- The component set carried by an erased statement. -/
def UntypedArchetypeStatement.component_set : UntypedArchetypeStatement → ComponentSet
  | .AllOf s => s
  | .AtLeastOneOf s => s
  | .NoneOf s => s

/-- `UntypedArchetypeInvariant`: a type-erased predicate/consequence pair. -/
structure UntypedArchetypeInvariant where
  /-- For all entities where the predicate is true -/
  predicate : UntypedArchetypeStatement
  /-- The consequence must also be true -/
  consequence : UntypedArchetypeStatement
deriving DecidableEq

/-- Typed `ArchetypeStatement<B>`.  In the source each variant carries only
`PhantomData<B>`; the bundle `B` is a compile-time type whose resolved
component ids are produced by the world at erasure time. -/
inductive ArchetypeStatement (B : Type) where
  | AllOf
  | AtLeastOneOf
  | NoneOf
deriving DecidableEq

/-- Typed `ArchetypeInvariant<B1, B2>`. -/
structure ArchetypeInvariant (B1 B2 : Type) where
  /-- For all entities where the predicate is true -/
  predicate : ArchetypeStatement B1
  /-- The consequence must also be true -/
  consequence : ArchetypeStatement B2

/-- `ArchetypeInvariant::full_bundle`: all components of the bundle require
each other: predicate `at_least_one_of`, consequence `all_of`. -/
def ArchetypeInvariant.full_bundle (B : Type) : ArchetypeInvariant B B :=
  { predicate := ArchetypeStatement.AtLeastOneOf
    consequence := ArchetypeStatement.AllOf }

/-- `ArchetypeStatement::into_untyped`: erases the type information.  The
source resolves the bundle to `component_ids : Vec<ComponentId>` and
collects it into a `HashSet`; the resolved list is the `component_ids`
argument here.  The second component of the result records whether the
source emits its `warn!` advisory (an `AtLeastOneOf` whose collected set
has exactly one element). -/
def ArchetypeStatement.into_untyped {B : Type} (st : ArchetypeStatement B)
    (component_ids : List ComponentId) : UntypedArchetypeStatement × Bool :=
  let ids : ComponentSet := component_ids.toFinset
  match st with
  | .AllOf => (UntypedArchetypeStatement.AllOf ids, false)
  | .AtLeastOneOf => (UntypedArchetypeStatement.AtLeastOneOf ids, ids.card == 1)
  | .NoneOf => (UntypedArchetypeStatement.NoneOf ids, false)

/-- `ArchetypeInvariant::into_untyped`: erases predicate and consequence,
each with the component ids resolved from its own bundle (`pids` for the
predicate's bundle `B1`, `cids` for the consequence's bundle `B2`). -/
def ArchetypeInvariant.into_untyped {B1 B2 : Type} (inv : ArchetypeInvariant B1 B2)
    (pids cids : List ComponentId) : UntypedArchetypeInvariant :=
  { predicate := (inv.predicate.into_untyped pids).1
    consequence := (inv.consequence.into_untyped cids).1 }

/-- `ArchetypeInvariants`: the registry, an ordered list of erased
invariants plus the cursor `last_checked_archetype_index`. -/
structure ArchetypeInvariants where
  raw_list : List UntypedArchetypeInvariant
  last_checked_archetype_index : Nat

/-- `ArchetypeInvariants::add`: resets the cursor to 0 and appends the
invariant to the list. -/
def ArchetypeInvariants.add (self : ArchetypeInvariants)
    (archetype_invariant : UntypedArchetypeInvariant) : ArchetypeInvariants :=
  { last_checked_archetype_index := 0
    raw_list := self.raw_list ++ [archetype_invariant] }

/-- Modelled from the spec: the statement evaluator `evaluate(statement,
entitySet)` is not present in the source file set (the enum documentation
describes it); its semantics are the truth table of spec section 4.1:
`AllOf(S)` holds iff `S ⊆ E`, `AtLeastOneOf(S)` iff `S ∩ E ≠ ∅`,
`NoneOf(S)` iff `S ∩ E = ∅`. -/
def evaluate : UntypedArchetypeStatement → ComponentSet → Bool
  | .AllOf s, e => decide (s ⊆ e)
  | .AtLeastOneOf s, e => decide (s ∩ e ≠ ∅)
  | .NoneOf s, e => decide (s ∩ e = ∅)

/-- `InvariantViolated`: the fatal diagnostic, carrying the offending
invariant and the archetype's component set. -/
structure InvariantViolated where
  invariant : UntypedArchetypeInvariant
  offendingComponentSet : ComponentSet
deriving DecidableEq

/-- Modelled from the spec: the body of `checkArchetype` over a single
archetype's component set — for every invariant in the list, if the
predicate evaluates to true the consequence is required to evaluate to
true; on the first failure the pass aborts with `InvariantViolated`. -/
def checkArchetypeSet (invs : List UntypedArchetypeInvariant) (s : ComponentSet) :
    Except InvariantViolated Unit :=
  match invs with
  | [] => Except.ok ()
  | inv :: rest =>
    if evaluate inv.predicate s then
      if evaluate inv.consequence s then
        checkArchetypeSet rest s
      else
        Except.error { invariant := inv, offendingComponentSet := s }
    else
      checkArchetypeSet rest s

/-- Modelled from the spec: `checkArchetype(i)` checks archetype `i`'s
component set against every invariant of the registry.  Out-of-range
indices are given the empty component set. -/
def checkArchetype (reg : ArchetypeInvariants) (archetypes : List ComponentSet)
    (i : Nat) : Except InvariantViolated Unit :=
  checkArchetypeSet reg.raw_list (archetypes.getD i ∅)

/-- Modelled from the spec: the body of `checkPass` over the still-unchecked
suffix of the archetype list, in order, aborting on the first violation. -/
def checkRange (invs : List UntypedArchetypeInvariant) :
    List ComponentSet → Except InvariantViolated Unit
  | [] => Except.ok ()
  | s :: rest =>
    match checkArchetypeSet invs s with
    | Except.ok _ => checkRange invs rest
    | Except.error v => Except.error v

/-- Modelled from the spec: `checkPass(archetypeList)` runs
`checkArchetype(i)` for `i` from the cursor to `len - 1`; on success of the
whole range the cursor is set to `len`, on a violation the registry is left
unchanged and the violation is surfaced. -/
def checkPass (reg : ArchetypeInvariants) (archetypes : List ComponentSet) :
    ArchetypeInvariants × Option InvariantViolated :=
  match checkRange reg.raw_list (archetypes.drop reg.last_checked_archetype_index) with
  | Except.ok _ => ({ reg with last_checked_archetype_index := archetypes.length }, none)
  | Except.error v => (reg, some v)

/-- Modelled from the spec: the operations the store performs against the
registry and its append-only archetype list — registering an invariant
(section 6 `addInvariant`), the external creation of a new distinct
archetype, and running the pending check pass (section 6
`runPendingChecks`). -/
inductive Op where
  | addInvariant (inv : UntypedArchetypeInvariant)
  | archetypeCreated (s : ComponentSet)
  | runPendingChecks

/-- The store-owned state the subsystem acts on: the registry plus the
append-only archetype list (each archetype identified by its component
set and its stable index in the list). -/
structure StoreState where
  reg : ArchetypeInvariants
  archetypes : List ComponentSet

/-- One step of the store: `addInvariant` appends to the registry and
resets the cursor, `archetypeCreated` appends an archetype, and
`runPendingChecks` runs the check pass (keeping the registry unchanged on
a violation). -/
def applyOp (st : StoreState) : Op → StoreState
  | Op.addInvariant inv => { st with reg := st.reg.add inv }
  | Op.archetypeCreated s => { st with archetypes := st.archetypes ++ [s] }
  | Op.runPendingChecks => { st with reg := (checkPass st.reg st.archetypes).1 }

/-- The initial store state: empty registry, cursor 0, no archetypes. -/
def initState : StoreState :=
  { reg := { raw_list := [], last_checked_archetype_index := 0 }
    archetypes := [] }

/-- A sequence of store operations applied in order. -/
def applyOps (st : StoreState) (ops : List Op) : StoreState :=
  ops.foldl applyOp st

/-- The subsystem invariant: the cursor lies in `[0, archetypeCount]` and
every archetype with index below the cursor satisfies every invariant
currently in the registry. -/
def validated (st : StoreState) : Prop :=
  st.reg.last_checked_archetype_index ≤ st.archetypes.length ∧
  ∀ i, i < st.reg.last_checked_archetype_index →
    ∀ inv ∈ st.reg.raw_list,
      evaluate inv.predicate (st.archetypes.getD i ∅) = true →
      evaluate inv.consequence (st.archetypes.getD i ∅) = true

/-- Equality of check outcomes is decidable, so concrete runs of the
checker can be evaluated. -/
instance : DecidableEq (Except InvariantViolated Unit) :=
  fun a b =>
    match a, b with
    | Except.ok (), Except.ok () => isTrue rfl
    | Except.error e, Except.error f =>
      if h : e = f then isTrue (congrArg Except.error h)
      else isFalse fun hef => h (by injection hef)
    | Except.ok (), Except.error _ => isFalse fun hef => Except.noConfusion hef
    | Except.error _, Except.ok () => isFalse fun hef => Except.noConfusion hef

/-- The erased form of `full_bundle` over the components 0, 1, 2. -/
def fullBundleABC : UntypedArchetypeInvariant :=
  (ArchetypeInvariant.full_bundle Unit).into_untyped [0, 1, 2] [0, 1, 2]

/-- A concrete erased invariant used to exercise the checker: if any of
the components 0, 1, 2 is present, all of them must be. -/
def sampleInvariant : UntypedArchetypeInvariant :=
  { predicate := UntypedArchetypeStatement.AtLeastOneOf {0, 1, 2}
    consequence := UntypedArchetypeStatement.AllOf {0, 1, 2} }

/-- The violation produced by checking the archetype with set `{0}`
against `sampleInvariant`. -/
def sampleViolation : InvariantViolated :=
  { invariant := sampleInvariant, offendingComponentSet := {0} }

/-- Erasure of an `AtLeastOneOf` statement over the duplicated id list
`[5, 5]`. -/
def dupAtLeastOneOf : UntypedArchetypeStatement × Bool :=
  (ArchetypeStatement.AtLeastOneOf : ArchetypeStatement Unit).into_untyped [5, 5]

/-! Helper lemmas shared by the claim theorems. -/

/-- Folding `add` over a list of invariants appends them in order. -/
lemma foldl_add_raw_list (reg : ArchetypeInvariants)
    (invs : List UntypedArchetypeInvariant) :
    (invs.foldl ArchetypeInvariants.add reg).raw_list = reg.raw_list ++ invs := by
  induction invs generalizing reg with
  | nil => simp
  | cons a l ih => simp [List.foldl_cons, ih, ArchetypeInvariants.add]

/-- A single archetype check succeeds exactly when every invariant whose
predicate holds also has its consequence hold. -/
lemma checkArchetypeSet_ok_iff (invs : List UntypedArchetypeInvariant)
    (s : ComponentSet) :
    checkArchetypeSet invs s = Except.ok () ↔
      ∀ inv ∈ invs, evaluate inv.predicate s = true →
        evaluate inv.consequence s = true := by
  induction invs with
  | nil => simp [checkArchetypeSet]
  | cons inv rest ih =>
    by_cases hp : evaluate inv.predicate s = true
    · by_cases hc : evaluate inv.consequence s = true
      · simp [checkArchetypeSet, hp, hc, ih]
      · simp [checkArchetypeSet, hp, hc]
    · simp [checkArchetypeSet, hp, ih]

/-- A failing single-archetype check identifies the first offending
invariant and carries the archetype's component set. -/
lemma checkArchetypeSet_error (invs : List UntypedArchetypeInvariant)
    (s : ComponentSet) (v : InvariantViolated)
    (h : checkArchetypeSet invs s = Except.error v) :
    v.offendingComponentSet = s ∧
      evaluate v.invariant.predicate s = true ∧
      evaluate v.invariant.consequence s = false ∧
      ∃ pre post, invs = pre ++ v.invariant :: post ∧
        ∀ inv ∈ pre, evaluate inv.predicate s = true →
          evaluate inv.consequence s = true := by
  induction invs with
  | nil => simp [checkArchetypeSet] at h
  | cons inv rest ih =>
    by_cases hp : evaluate inv.predicate s = true
    · by_cases hc : evaluate inv.consequence s = true
      · have hcs : checkArchetypeSet (inv :: rest) s = checkArchetypeSet rest s := by
          simp [checkArchetypeSet, hp, hc]
        rw [hcs] at h
        obtain ⟨h1, h2, h3, pre, post, h4, h5⟩ := ih h
        refine ⟨h1, h2, h3, inv :: pre, post, by simp [h4], ?_⟩
        intro i hi
        rcases List.mem_cons.mp hi with hi | hi
        · subst hi; intro _; exact hc
        · exact h5 i hi
      · have hcs : checkArchetypeSet (inv :: rest) s
            = Except.error { invariant := inv, offendingComponentSet := s } := by
          simp [checkArchetypeSet, hp, hc]
        rw [hcs] at h
        injection h with hv
        subst hv
        exact ⟨rfl, hp, by simpa using hc, [], rest, rfl, by simp⟩
    · have hcs : checkArchetypeSet (inv :: rest) s = checkArchetypeSet rest s := by
        simp [checkArchetypeSet, hp]
      rw [hcs] at h
      obtain ⟨h1, h2, h3, pre, post, h4, h5⟩ := ih h
      refine ⟨h1, h2, h3, inv :: pre, post, by simp [h4], ?_⟩
      intro i hi
      rcases List.mem_cons.mp hi with hi | hi
      · subst hi; intro hcontra; exact absurd hcontra hp
      · exact h5 i hi

/-- A range check succeeds exactly when every archetype set in the range
passes its single-archetype check. -/
lemma checkRange_ok_iff (invs : List UntypedArchetypeInvariant)
    (l : List ComponentSet) :
    checkRange invs l = Except.ok () ↔
      ∀ s ∈ l, checkArchetypeSet invs s = Except.ok () := by
  induction l with
  | nil => simp [checkRange]
  | cons s rest ih =>
    cases hs : checkArchetypeSet invs s with
    | ok u => cases u; simp [checkRange, hs, ih]
    | error v => simp [checkRange, hs]

/-- An archetype read at an index at or past the cursor is a member of the
suffix of the list that the pass still has to check. -/
lemma getD_mem_drop (l : List ComponentSet) (c i : Nat) (hc : c ≤ i)
    (hi : i < l.length) : l.getD i ∅ ∈ l.drop c := by
  have hd : i - c < (l.drop c).length := by
    rw [List.length_drop]; omega
  have he : (l.drop c).get ⟨i - c, hd⟩ = l[i] := by
    have h2 : (l.drop c)[i - c] = l[c + (i - c)] := List.getElem_drop l
    rw [List.get_eq_getElem, h2]
    congr 1
    omega
  rw [List.getD_eq_getElem l ∅ hi, ← he]
  exact List.get_mem _ _ _

/-- Quantifying over the members of the dropped suffix is quantifying over
the indices from the cursor to the end of the list. -/
lemma forall_mem_drop_iff (l : List ComponentSet) (c : Nat)
    (P : ComponentSet → Prop) :
    (∀ s ∈ l.drop c, P s) ↔ ∀ i, c ≤ i → i < l.length → P (l.getD i ∅) := by
  constructor
  · intro h i hci hi
    exact h _ (getD_mem_drop l c i hci hi)
  · intro h s hs
    obtain ⟨j, hj, hjs⟩ := List.mem_iff_getElem.mp hs
    have hlen : c + j < l.length := by
      rw [List.length_drop] at hj
      omega
    have h2 : (l.drop c)[j] = l[c + j] := List.getElem_drop l
    have h3 : l.getD (c + j) ∅ = s := by
      rw [List.getD_eq_getElem l ∅ hlen, ← h2, hjs]
    rw [← h3]
    exact h (c + j) (Nat.le_add_right c j) hlen

/-- Each store operation preserves the subsystem invariant. -/
lemma validated_applyOp (st : StoreState) (op : Op) (h : validated st) :
    validated (applyOp st op) := by
  obtain ⟨hle, hval⟩ := h
  cases op with
  | addInvariant inv =>
    refine ⟨by simp [applyOp, ArchetypeInvariants.add], ?_⟩
    intro i hi
    simp [applyOp, ArchetypeInvariants.add] at hi
  | archetypeCreated s =>
    refine ⟨?_, ?_⟩
    · simp only [applyOp, List.length_append, List.length_cons, List.length_nil]
      omega
    · intro i hi inv hinv hpred
      have hi2 : i < st.archetypes.length := lt_of_lt_of_le hi hle
      have hgd : (st.archetypes ++ [s]).getD i ∅ = st.archetypes.getD i ∅ :=
        List.getD_append _ _ _ _ hi2
      simp only [applyOp] at hi hinv hpred ⊢
      rw [hgd] at hpred ⊢
      exact hval i hi inv hinv hpred
  | runPendingChecks =>
    cases hcr : checkRange st.reg.raw_list
        (st.archetypes.drop st.reg.last_checked_archetype_index) with
    | error v =>
      have hid : applyOp st Op.runPendingChecks = st := by
        simp [applyOp, checkPass, hcr]
      rw [hid]
      exact ⟨hle, hval⟩
    | ok u =>
      cases u
      refine ⟨?_, ?_⟩
      · simp [applyOp, checkPass, hcr]
      · intro i hi inv hinv hpred
        simp only [applyOp, checkPass, hcr] at hi hinv hpred ⊢
        by_cases hcur : i < st.reg.last_checked_archetype_index
        · exact hval i hcur inv hinv hpred
        · have hmem : st.archetypes.getD i ∅
              ∈ st.archetypes.drop st.reg.last_checked_archetype_index :=
            getD_mem_drop _ _ _ (Nat.le_of_not_lt hcur) hi
          have hok := (checkRange_ok_iff _ _).mp hcr _ hmem
          exact (checkArchetypeSet_ok_iff _ _).mp hok inv hinv hpred

/-- The initial store state satisfies the subsystem invariant. -/
lemma validated_initState : validated initState := by
  refine ⟨Nat.le_refl 0, ?_⟩
  intro i hi
  simp [initState] at hi

/-- Any operation sequence preserves the subsystem invariant. -/
lemma validated_applyOps (st : StoreState) (ops : List Op) (h : validated st) :
    validated (applyOps st ops) := by
  induction ops generalizing st with
  | nil => exact h
  | cons op rest ih => exact ih (applyOp st op) (validated_applyOp st op h)

/-- The cursor never decreases except through `addInvariant`, which sets
it to 0. -/
lemma cursor_decrease_only_add (st : StoreState) (op : Op) (h : validated st)
    (hdec : (applyOp st op).reg.last_checked_archetype_index
      < st.reg.last_checked_archetype_index) :
    ∃ inv, op = Op.addInvariant inv ∧
      (applyOp st op).reg.last_checked_archetype_index = 0 := by
  cases op with
  | addInvariant inv => exact ⟨inv, rfl, rfl⟩
  | archetypeCreated s => simp [applyOp] at hdec
  | runPendingChecks =>
    exfalso
    cases hcr : checkRange st.reg.raw_list
        (st.archetypes.drop st.reg.last_checked_archetype_index) with
    | error v =>
      simp [applyOp, checkPass, hcr] at hdec
    | ok u =>
      cases u
      simp only [applyOp, checkPass, hcr] at hdec
      exact absurd hdec (Nat.not_lt.mpr h.1)

/-! The claim theorems. -/

/-- C1: `evaluate` is a total boolean function with `AllOf(S)` true iff
`S ⊆ E`, `AtLeastOneOf(S)` true iff `S ∩ E ≠ ∅`, and `NoneOf(S)` true iff
`S ∩ E = ∅`; in particular, for every `E`, `AllOf(∅)` and `NoneOf(∅)` are
true and `AtLeastOneOf(∅)` is false. -/
theorem evaluate_statement_semantics (S E : ComponentSet) :
    (evaluate (UntypedArchetypeStatement.AllOf S) E = true ↔ S ⊆ E) ∧
    (evaluate (UntypedArchetypeStatement.AtLeastOneOf S) E = true ↔ S ∩ E ≠ ∅) ∧
    (evaluate (UntypedArchetypeStatement.NoneOf S) E = true ↔ S ∩ E = ∅) ∧
    evaluate (UntypedArchetypeStatement.AllOf ∅) E = true ∧
    evaluate (UntypedArchetypeStatement.NoneOf ∅) E = true ∧
    evaluate (UntypedArchetypeStatement.AtLeastOneOf ∅) E = false := by
  refine ⟨?_, ?_, ?_, ?_, ?_, ?_⟩ <;> simp [evaluate]

/-- C2: checking one archetype's component set iterates over every
invariant of the registry's list: it succeeds exactly when every invariant
whose predicate evaluates to true also has its consequence evaluate to
true on that same set; otherwise it aborts on the first failing invariant
with a fatal `InvariantViolated` carrying exactly that invariant and the
archetype's component set, and success or that fatal diagnostic are the
only outcomes. -/
theorem checkArchetype_first_violation (invs : List UntypedArchetypeInvariant)
    (s : ComponentSet) :
    (checkArchetypeSet invs s = Except.ok () ↔
      ∀ inv ∈ invs, evaluate inv.predicate s = true →
        evaluate inv.consequence s = true) ∧
    (∀ v, checkArchetypeSet invs s = Except.error v →
      v.offendingComponentSet = s ∧
      evaluate v.invariant.predicate s = true ∧
      evaluate v.invariant.consequence s = false ∧
      ∃ pre post, invs = pre ++ v.invariant :: post ∧
        ∀ inv ∈ pre, evaluate inv.predicate s = true →
          evaluate inv.consequence s = true) ∧
    (checkArchetypeSet invs s = Except.ok () ∨
      ∃ v, checkArchetypeSet invs s = Except.error v) := by
  refine ⟨checkArchetypeSet_ok_iff invs s,
    fun v hv => checkArchetypeSet_error invs s v hv, ?_⟩
  cases h : checkArchetypeSet invs s with
  | ok u => cases u; exact Or.inl rfl
  | error v => exact Or.inr ⟨v, rfl⟩

/-- Witness for C2: the archetype `{0}` checked against the single
invariant `sampleInvariant` aborts with the violation `sampleViolation`,
whose decomposition the theorem supplies. -/
theorem checkArchetype_first_violation_witness :
    sampleViolation.offendingComponentSet = {0} ∧
    evaluate sampleViolation.invariant.predicate {0} = true ∧
    evaluate sampleViolation.invariant.consequence {0} = false ∧
    ∃ pre post, [sampleInvariant] = pre ++ sampleViolation.invariant :: post ∧
      ∀ inv ∈ pre, evaluate inv.predicate {0} = true →
        evaluate inv.consequence {0} = true :=
  (checkArchetype_first_violation [sampleInvariant] {0}).2.1 sampleViolation
    (by decide)

/-- C3: `add` appends the given erased invariant to the end of the
registry's list and resets the cursor to 0 regardless of its previous
value. -/
theorem add_appends_and_resets_cursor (reg : ArchetypeInvariants)
    (inv : UntypedArchetypeInvariant) :
    (reg.add inv).raw_list = reg.raw_list ++ [inv] ∧
    (reg.add inv).last_checked_archetype_index = 0 :=
  ⟨rfl, rfl⟩

/-- C4: `checkPass` checks exactly the indices from the current cursor up
to `len - 1`: it reports no violation iff every index of that range passes
`checkArchetype`, in which case the cursor is set to `len` (the invariant
list untouched); on a violation the registry, cursor included, is left
unchanged. -/
theorem checkPass_range (reg : ArchetypeInvariants)
    (archetypes : List ComponentSet) :
    ((checkPass reg archetypes).2 = none ↔
      ∀ i, reg.last_checked_archetype_index ≤ i → i < archetypes.length →
        checkArchetype reg archetypes i = Except.ok ()) ∧
    ((checkPass reg archetypes).2 = none →
      (checkPass reg archetypes).1.last_checked_archetype_index
        = archetypes.length ∧
      (checkPass reg archetypes).1.raw_list = reg.raw_list) ∧
    (∀ v, (checkPass reg archetypes).2 = some v →
      (checkPass reg archetypes).1 = reg) := by
  have hbridge : (∀ s ∈ archetypes.drop reg.last_checked_archetype_index,
        checkArchetypeSet reg.raw_list s = Except.ok ()) ↔
      ∀ i, reg.last_checked_archetype_index ≤ i → i < archetypes.length →
        checkArchetype reg archetypes i = Except.ok () :=
    forall_mem_drop_iff archetypes reg.last_checked_archetype_index
      (fun s => checkArchetypeSet reg.raw_list s = Except.ok ())
  cases hcr : checkRange reg.raw_list
      (archetypes.drop reg.last_checked_archetype_index) with
  | ok u =>
    cases u
    have hcp : checkPass reg archetypes
        = ({ reg with last_checked_archetype_index := archetypes.length }, none) := by
      simp [checkPass, hcr]
    rw [hcp]
    exact ⟨⟨fun _ => hbridge.mp ((checkRange_ok_iff _ _).mp hcr), fun _ => rfl⟩,
      fun _ => ⟨rfl, rfl⟩, fun v hv => Option.noConfusion hv⟩
  | error v =>
    have hcp : checkPass reg archetypes = (reg, some v) := by
      simp [checkPass, hcr]
    rw [hcp]
    refine ⟨⟨fun hn => Option.noConfusion hn, ?_⟩,
      fun hn => Option.noConfusion hn, fun w _ => rfl⟩
    intro hall
    have hok := (checkRange_ok_iff _ _).mpr (hbridge.mpr hall)
    rw [hcr] at hok
    exact Except.noConfusion hok

/-- Witness for C4: with `sampleInvariant` registered and cursor 0, the
pass over the single archetype `{0, 1, 2}` reports no violation, and the
theorem yields the success of index 0. -/
theorem checkPass_range_witness :
    checkArchetype
      { raw_list := [sampleInvariant], last_checked_archetype_index := 0 }
      [{0, 1, 2}] 0 = Except.ok () :=
  ((checkPass_range
      { raw_list := [sampleInvariant], last_checked_archetype_index := 0 }
      [{0, 1, 2}]).1.mp (by decide)) 0 (Nat.le_refl 0) (by decide)

/-- C5: after any sequence of store operations from the initial state, the
cursor lies in `[0, archetypeCount]` and every archetype with index below
the cursor satisfies every invariant currently registered; an
`addInvariant` step always sets the cursor to 0, and any step that lowers
the cursor is an `addInvariant` step (which resets it to 0). -/
theorem cursor_monotonic_invariant (ops : List Op) (op : Op) :
    validated (applyOps initState ops) ∧
    ((∃ inv, op = Op.addInvariant inv) →
      (applyOp (applyOps initState ops) op).reg.last_checked_archetype_index = 0) ∧
    ((applyOp (applyOps initState ops) op).reg.last_checked_archetype_index
        < (applyOps initState ops).reg.last_checked_archetype_index →
      ∃ inv, op = Op.addInvariant inv ∧
        (applyOp (applyOps initState ops) op).reg.last_checked_archetype_index = 0) := by
  have hv := validated_applyOps initState ops validated_initState
  refine ⟨hv, ?_, ?_⟩
  · rintro ⟨inv, rfl⟩
    rfl
  · intro hdec
    exact cursor_decrease_only_add _ op hv hdec

/-- Witness for C5: the invariant holds after creating archetype `{0}` and
registering `sampleInvariant`, and the subsequent `addInvariant` step
resets the cursor to 0. -/
theorem cursor_monotonic_invariant_witness :
    validated (applyOps initState
      [Op.archetypeCreated {0}, Op.runPendingChecks]) ∧
    (applyOp (applyOps initState
        [Op.archetypeCreated {0}, Op.runPendingChecks])
      (Op.addInvariant sampleInvariant)).reg.last_checked_archetype_index = 0 :=
  ⟨(cursor_monotonic_invariant [Op.archetypeCreated {0}, Op.runPendingChecks]
      (Op.addInvariant sampleInvariant)).1,
    (cursor_monotonic_invariant [Op.archetypeCreated {0}, Op.runPendingChecks]
      (Op.addInvariant sampleInvariant)).2.1 ⟨sampleInvariant, rfl⟩⟩

/-- C6: `full_bundle` pairs an `AtLeastOneOf` predicate with an `AllOf`
consequence over the bundle's components; for components 0, 1, 2, the
archetype `{0}` violates it, the archetype `{0, 1, 2}` satisfies it, and
the disjoint archetype `{3}` satisfies it trivially with a false
predicate. -/
theorem full_bundle_semantics :
    (∀ (B : Type), ArchetypeInvariant.full_bundle B
      = { predicate := ArchetypeStatement.AtLeastOneOf
          consequence := ArchetypeStatement.AllOf }) ∧
    fullBundleABC.predicate
      = UntypedArchetypeStatement.AtLeastOneOf ({0, 1, 2} : ComponentSet) ∧
    fullBundleABC.consequence
      = UntypedArchetypeStatement.AllOf ({0, 1, 2} : ComponentSet) ∧
    (evaluate fullBundleABC.predicate {0} = true ∧
      evaluate fullBundleABC.consequence {0} = false ∧
      checkArchetypeSet [fullBundleABC] {0}
        = Except.error
            { invariant := fullBundleABC, offendingComponentSet := {0} }) ∧
    (evaluate fullBundleABC.predicate {0, 1, 2} = true ∧
      evaluate fullBundleABC.consequence {0, 1, 2} = true ∧
      checkArchetypeSet [fullBundleABC] {0, 1, 2} = Except.ok ()) ∧
    (evaluate fullBundleABC.predicate {3} = false ∧
      checkArchetypeSet [fullBundleABC] {3} = Except.ok ()) := by
  refine ⟨fun B => rfl, by decide, by decide, ⟨by decide, by decide, by decide⟩,
    ⟨by decide, by decide, by decide⟩, by decide, by decide⟩

/-- C7: the redundant-singleton advisory fires at erasure time exactly
when an `AtLeastOneOf` statement's resolved component set has exactly one
member; the other statement kinds never fire it, the erased statement
produced does not depend on it, and evaluation results are unchanged. -/
theorem redundant_singleton_advisory (B : Type) (ids : List ComponentId) :
    (((ArchetypeStatement.AtLeastOneOf : ArchetypeStatement B).into_untyped ids).2
        = true ↔ ids.toFinset.card = 1) ∧
    ((ArchetypeStatement.AllOf : ArchetypeStatement B).into_untyped ids).2 = false ∧
    ((ArchetypeStatement.NoneOf : ArchetypeStatement B).into_untyped ids).2 = false ∧
    ((ArchetypeStatement.AtLeastOneOf : ArchetypeStatement B).into_untyped ids).1
      = UntypedArchetypeStatement.AtLeastOneOf ids.toFinset ∧
    (∀ E, evaluate
        (((ArchetypeStatement.AtLeastOneOf : ArchetypeStatement B).into_untyped
          ids).1) E
      = evaluate (UntypedArchetypeStatement.AtLeastOneOf ids.toFinset) E) := by
  refine ⟨?_, rfl, rfl, rfl, fun E => rfl⟩
  simp [ArchetypeStatement.into_untyped]

/-- C8: erasure of an invariant resolves the predicate's bundle and the
consequence's bundle independently of each other, preserves each
statement's kind, and gives each erased statement exactly the set resolved
from its own bundle. -/
theorem into_untyped_independent (B1 B2 : Type) (p : ArchetypeStatement B1)
    (c : ArchetypeStatement B2) (pids cids : List ComponentId) :
    (({ predicate := p, consequence := c } : ArchetypeInvariant B1 B2).into_untyped
        pids cids).predicate = (p.into_untyped pids).1 ∧
    (({ predicate := p, consequence := c } : ArchetypeInvariant B1 B2).into_untyped
        pids cids).consequence = (c.into_untyped cids).1 ∧
    ((ArchetypeStatement.AllOf : ArchetypeStatement B1).into_untyped pids).1
      = UntypedArchetypeStatement.AllOf pids.toFinset ∧
    ((ArchetypeStatement.AtLeastOneOf : ArchetypeStatement B1).into_untyped pids).1
      = UntypedArchetypeStatement.AtLeastOneOf pids.toFinset ∧
    ((ArchetypeStatement.NoneOf : ArchetypeStatement B1).into_untyped pids).1
      = UntypedArchetypeStatement.NoneOf pids.toFinset :=
  ⟨rfl, rfl, rfl, rfl, rfl⟩

/-- C9: the registry has no removal: after `add`, and after any sequence
of `add` operations, every previously registered invariant is still
present, unmodified and in its original insertion order, with the new
invariant at the end. -/
theorem add_preserves_existing (reg : ArchetypeInvariants)
    (inv : UntypedArchetypeInvariant) (invs : List UntypedArchetypeInvariant) :
    (reg.add inv).raw_list.take reg.raw_list.length = reg.raw_list ∧
    (reg.add inv).raw_list.drop reg.raw_list.length = [inv] ∧
    (reg.add inv).raw_list.length = reg.raw_list.length + 1 ∧
    (invs.foldl ArchetypeInvariants.add reg).raw_list = reg.raw_list ++ invs := by
  refine ⟨?_, ?_, by simp [ArchetypeInvariants.add], foldl_add_raw_list reg invs⟩
  · show (reg.raw_list ++ [inv]).take reg.raw_list.length = reg.raw_list
    simp
  · show (reg.raw_list ++ [inv]).drop reg.raw_list.length = [inv]
    simp

/-- C10: erasure collects the resolved component ids into a set, so each
id appears exactly once regardless of its multiplicity in the bundle's id
list, and the singleton advisory counts distinct resolved ids: the
two-element list `[5, 5]` erases to the singleton set `{5}` and fires the
advisory. -/
theorem into_untyped_dedups (B : Type) (st : ArchetypeStatement B)
    (ids : List ComponentId) (c : ComponentId) :
    (c ∈ ((st.into_untyped ids).1).component_set ↔ c ∈ ids) ∧
    (((ArchetypeStatement.AtLeastOneOf : ArchetypeStatement B).into_untyped ids).2
        = true ↔ ids.toFinset.card = 1) ∧
    (([5, 5] : List ComponentId).length = 2 ∧
      dupAtLeastOneOf.1 = UntypedArchetypeStatement.AtLeastOneOf {5} ∧
      dupAtLeastOneOf.2 = true) := by
  refine ⟨?_, ?_, by decide, by decide, by decide⟩
  · cases st <;>
      simp [ArchetypeStatement.into_untyped, UntypedArchetypeStatement.component_set]
  · simp [ArchetypeStatement.into_untyped]

end Bevy
